import Mathlib

/-!
Verification of the DuoMind retrieval core.

This file is a shallow embedding of the retrieval/fusion/QA pipeline of the
DuoMind backend (`backend/app/services/`): the BM25+/BM25L lexical scorers
(`bm25_plus.py`), the score-fusion utilities and the advanced hybrid
retriever (`advanced_hybrid_retriever.py`), the dense passage retriever
(`dpr_retriever.py`), the public vector-store facade (`vector_store.py`),
and the neural QA layer (`neural_qa.py`).

Modelling conventions:
* Python floats are modelled as rationals (`ℚ`); `math.log` is transcendental
  and is therefore threaded through as an explicit function parameter.
* External model capabilities (the DPR encoders, the cosine-similarity
  computation over the stored embedding matrix, the extractive reader, the
  Chroma fallback search) are passed in as explicit function parameters.
* A Python method that can raise is embedded with `Except`; a method that
  mutates `self` before a possible raise returns the pair
  (result, post-state) so that the state after an exception is visible.
-/

deriving instance DecidableEq for Except

namespace DuoMind

/-- ASCII punctuation predicate: exactly the characters of Python
`string.punctuation` (character codes 33-47, 58-64, 91-96, 123-126). -/
def isPunct (c : Char) : Bool :=
  (33 ≤ c.toNat && c.toNat ≤ 47) || (58 ≤ c.toNat && c.toNat ≤ 64) ||
  (91 ≤ c.toNat && c.toNat ≤ 96) || (123 ≤ c.toNat && c.toNat ≤ 126)

/-- ASCII lowercasing of one character (Python `str.lower`; all inputs of
interest are ASCII). -/
def asciiLower (c : Char) : Char :=
  if 65 ≤ c.toNat ∧ c.toNat ≤ 90 then Char.ofNat (c.toNat + 32) else c

/-- Python `s.lower()` (ASCII). -/
def pyLower (s : String) : String :=
  String.mk (s.data.map asciiLower)

/-- Worker for `pySplit`: walk the characters, accumulating the current
token (reversed); whitespace flushes it. -/
def pySplitAux : List Char → List Char → List String
  | [], acc => if acc.isEmpty then [] else [String.mk acc.reverse]
  | c :: cs, acc =>
    if c.isWhitespace then
      (if acc.isEmpty then pySplitAux cs [] else String.mk acc.reverse :: pySplitAux cs [])
    else pySplitAux cs (c :: acc)

/-- Python `text.split()` with no argument: split on whitespace runs,
dropping empty pieces. -/
def pySplit (s : String) : List String :=
  pySplitAux s.data []

/-- Python `s.strip()`: drop leading and trailing whitespace. -/
def pyStrip (s : String) : String :=
  String.mk (((s.data.dropWhile Char.isWhitespace).reverse.dropWhile Char.isWhitespace).reverse)

/-- Embedding of `AdvancedHybridRetriever._preprocess_text`: lowercase,
delete ASCII punctuation (the source uses
`text.translate(str.maketrans('', '', string.punctuation))`, which removes
the characters), split on whitespace, and drop tokens of length ≤ 1. -/
def preprocessText (text : String) : List String :=
  let lowered := pyLower text
  let stripped := String.mk (lowered.data.filter (fun c => !isPunct c))
  (pySplit stripped).filter (fun t => 1 < t.length)

/-- Shared state of the `BM25Plus` and `BM25L` classes of `bm25_plus.py`:
the tokenized corpus, the parameter triple, and the IDF table. The source
stores `doc_freqs`, `doc_len`, `avgdl` and `corpus_size` as fields computed
from `corpus` in `__init__`; they are recovered here as functions of
`corpus`, which is extensionally the same data. `idf` is kept as a stored
function because its construction uses `math.log` (see `mkIdf`). -/
structure BM25 where
  corpus : List (List String)
  k1 : ℚ
  b : ℚ
  delta : ℚ
  idf : String → ℚ

/-- Number of corpus documents containing token `t`: the `nd[word]` document
frequency computed in both `__init__` bodies. -/
def docFreq (corpus : List (List String)) (t : String) : ℕ :=
  (corpus.filter (fun doc => doc.count t ≠ 0)).length

/-- Embedding of the IDF table built in both `__init__` bodies:
`idf[word] = log((N - df + 0.5) / (df + 0.5))` for each word occurring in
the corpus, and `self.idf.get(term, 0)` yields `0` for absent words
(absent iff document frequency is `0`). `log` is the caller-supplied stand-in
for `math.log`. -/
def mkIdf (log : ℚ → ℚ) (corpus : List (List String)) : String → ℚ :=
  fun t =>
    let df := docFreq corpus t
    if df = 0 then 0
    else log (((corpus.length : ℚ) - (df : ℚ) + 1/2) / ((df : ℚ) + 1/2))

/-- Embedding of `self.avgdl`: mean token length of the corpus documents,
`0` for an empty corpus. -/
def BM25.avgdl (m : BM25) : ℚ :=
  if m.corpus.isEmpty then 0
  else (((m.corpus.map List.length).sum : ℚ)) / ((m.corpus.length : ℚ))

/-- Embedding of `BM25Plus.__init__` with its default parameters
`k1 = 1.2`, `b = 0.75`, `delta = 1.0`. -/
def mkBM25Plus (log : ℚ → ℚ) (corpus : List (List String)) : BM25 :=
  { corpus := corpus, k1 := 6/5, b := 3/4, delta := 1, idf := mkIdf log corpus }

/-- Embedding of `BM25L.__init__` with its default parameters
`k1 = 1.2`, `b = 0.75`, `delta = 0.5`. -/
def mkBM25L (log : ℚ → ℚ) (corpus : List (List String)) : BM25 :=
  { corpus := corpus, k1 := 6/5, b := 3/4, delta := 1/2, idf := mkIdf log corpus }

/-- One term's contribution inside the `BM25Plus.get_scores` loop:
`idf_score * (numerator / denominator + delta)` with
`numerator = tf * (k1 + 1)` and
`denominator = tf + k1 * (1 - b + b * (doc_len / avgdl))`. -/
def bm25PlusTerm (m : BM25) (doc : List String) (t : String) : ℚ :=
  let tf : ℚ := (doc.count t : ℚ)
  let numerator := tf * (m.k1 + 1)
  let denominator := tf + m.k1 * (1 - m.b + m.b * (((doc.length : ℚ)) / m.avgdl))
  m.idf t * (numerator / denominator + m.delta)

/-- One term's contribution inside the `BM25L.get_scores` loop:
`idf_score * (numerator / denominator) + delta` with
`ctd = tf / (1 - b + b * (doc_len / avgdl))`, `numerator = (k1 + 1) * ctd`
and `denominator = k1 + ctd`; note `delta` is added outside the IDF factor,
unlike BM25+. -/
def bm25LTerm (m : BM25) (doc : List String) (t : String) : ℚ :=
  let tf : ℚ := (doc.count t : ℚ)
  let ctd := tf / (1 - m.b + m.b * (((doc.length : ℚ)) / m.avgdl))
  let numerator := (m.k1 + 1) * ctd
  let denominator := m.k1 + ctd
  m.idf t * (numerator / denominator) + m.delta

/-- Embedding of `BM25Plus.get_scores`: for each corpus document, accumulate
over the query tokens, adding a term contribution whenever the token occurs
in the document (`if term in doc_freqs`). -/
def bm25PlusGetScores (m : BM25) (query : List String) : List ℚ :=
  m.corpus.map (fun doc =>
    query.foldl
      (fun score t => if doc.count t ≠ 0 then score + bm25PlusTerm m doc t else score) 0)

/-- Embedding of `BM25L.get_scores`: the same loop shape as
`bm25PlusGetScores` with the BM25L term contribution. -/
def bm25LGetScores (m : BM25) (query : List String) : List ℚ :=
  m.corpus.map (fun doc =>
    query.foldl
      (fun score t => if doc.count t ≠ 0 then score + bm25LTerm m doc t else score) 0)

/-- Python `min` over a non-empty list (the empty case, which raises in
Python, is mapped to `0`; every use below is guarded by non-emptiness). -/
def pyMin : List ℚ → ℚ
  | [] => 0
  | x :: xs => xs.foldl min x

/-- Python `max` over a non-empty list (same convention as `pyMin`). -/
def pyMax : List ℚ → ℚ
  | [] => 0
  | x :: xs => xs.foldl max x

/-- Embedding of `ScoreFusion.min_max_normalize`: passthrough for length ≤ 1,
all ones when every entry is equal, otherwise `(s - min) / (max - min)`. -/
def minMaxNormalize (scores : List ℚ) : List ℚ :=
  if scores.isEmpty || scores.length == 1 then scores
  else
    let mn := pyMin scores
    let mx := pyMax scores
    if mx == mn then List.replicate scores.length 1
    else scores.map (fun s => (s - mn) / (mx - mn))

/-- Embedding of `ScoreFusion.weighted_sum_fusion`: raises `ValueError`
(modelled as `Except.error`) when the two score lists differ in length;
otherwise optionally min-max normalizes each side and returns the
elementwise weighted sum. -/
def weightedSumFusion (scores1 scores2 : List ℚ) (weight1 weight2 : ℚ)
    (normalize : Bool) : Except Unit (List ℚ) :=
  if scores1.length ≠ scores2.length then .error ()
  else
    let s1 := if normalize then minMaxNormalize scores1 else scores1
    let s2 := if normalize then minMaxNormalize scores2 else scores2
    .ok ((s1.zip s2).map (fun p => weight1 * p.1 + weight2 * p.2))

/-- A metadata record. The claims only ever inspect the `document_id` entry,
so the record is modelled as that entry (absent = `none`) together with the
remaining key/value pairs kept opaque as an association list. -/
structure Md where
  document_id : Option String
  rest : List (String × String)
  deriving DecidableEq, Inhabited

/-- Default metadata synthesized by `AdvancedHybridRetriever.add_documents`
when none is given: `{"doc_id": len(self.document_metadata) + i}`. -/
def defaultAdvMd (start n : ℕ) : List Md :=
  (List.range n).map (fun i => { document_id := none, rest := [("doc_id", toString (start + i))] })

/-- Default metadata synthesized by `DPRRetriever.add_passages` when none is
given: `{"index": len(self.passage_metadata) + i}`. -/
def defaultDprMd (start n : ℕ) : List Md :=
  (List.range n).map (fun i => { document_id := none, rest := [("index", toString (start + i))] })

/-- A result dictionary as passed between the retriever layers. Dictionary
keys that are absent from a given shape are modelled with `none`:
`bm25_score`/`dpr_score` are only set by the weighted-sum branch of
`AdvancedHybridRetriever.search`, `rrf_score` only by
`ScoreFusion.rank_fusion`, and `fusion_weights` only by
`AdvancedHybridRetriever.search`. -/
structure SearchResult where
  passage : String
  score : ℚ
  metadata : Md
  doc_index : ℕ
  bm25_score : Option ℚ
  dpr_score : Option ℚ
  rrf_score : Option ℚ
  fusion_weights : Option (ℚ × ℚ)
  deriving DecidableEq, Inhabited

/-- State of a `DPRRetriever`: the stacked passage-embedding matrix
(`None` before the first add and after `clear_index`), the passage texts,
and per-passage metadata. Embedding rows are rational vectors. -/
structure DprState where
  passage_embeddings : Option (List (List ℚ))
  passages : List String
  passage_metadata : List Md
  deriving DecidableEq

/-- The freshly constructed (or cleared) DPR state. -/
def DprState.empty : DprState := ⟨none, [], []⟩

/-- Embedding of `DPRRetriever.clear_index`. -/
def dprClearIndex (_st : DprState) : DprState := DprState.empty

/-- External capabilities consumed by the core, passed explicitly:
`log` stands for `math.log` in the IDF computation; `encodePassages` models
`DPRRetriever.encode_passages`, which may raise (an encoder failure is fatal
on the ingestion path); `sim` models `encode_question` followed by
`cosine_similarity` against the stored matrix, yielding one score per row;
`chromaFallback` models `VectorStore._fallback_semantic_search`, which
queries the external Chroma collection. -/
structure Env where
  log : ℚ → ℚ
  encodePassages : List String → Except Unit (List (List ℚ))
  sim : String → List (List ℚ) → List ℚ
  chromaFallback : String → ℕ → Option (List String) → List SearchResult

/-- Embedding of `DPRRetriever.add_passages`. Encoding happens before any
mutation of the index, so an encoder failure propagates with this sub-state
unchanged. When no metadata is supplied the per-passage default is
synthesized. -/
def dprAddPassages (env : Env) (st : DprState) (passages : List String)
    (metadata : Option (List Md)) : Except Unit DprState :=
  if passages.isEmpty then .ok st
  else
    match env.encodePassages passages with
    | .error e => .error e
    | .ok newEmbeddings =>
      let emb := match st.passage_embeddings with
        | none => newEmbeddings
        | some old => old ++ newEmbeddings
      let md := metadata.getD (defaultDprMd st.passage_metadata.length passages.length)
      .ok { passage_embeddings := some emb
            passages := st.passages ++ passages
            passage_metadata := st.passage_metadata ++ md }

/-- Comparison on indexed rationals by value, ascending (for `np.argsort`). -/
def sndLe (p q : ℕ × ℚ) : Prop := p.2 ≤ q.2

instance : DecidableRel sndLe := fun p q => inferInstanceAs (Decidable (p.2 ≤ q.2))

instance : IsTotal (ℕ × ℚ) sndLe := ⟨fun p q => le_total p.2 q.2⟩

instance : IsTrans (ℕ × ℚ) sndLe := ⟨fun _ _ _ h h2 => le_trans h h2⟩

/-- Comparison on indexed rationals by value, descending (for Python
`sorted(..., key=lambda x: x[1], reverse=True)`, which is stable). -/
def sndGe (p q : ℕ × ℚ) : Prop := q.2 ≤ p.2

instance : DecidableRel sndGe := fun p q => inferInstanceAs (Decidable (q.2 ≤ p.2))

instance : IsTotal (ℕ × ℚ) sndGe := ⟨fun p q => le_total q.2 p.2⟩

instance : IsTrans (ℕ × ℚ) sndGe := ⟨fun _ _ _ h h2 => le_trans h2 h⟩

/-- Comparison on result dictionaries by `score`, descending (for
`results.sort(key=lambda x: x['score'], reverse=True)`). -/
def scoreGe (a b : SearchResult) : Prop := b.score ≤ a.score

instance : DecidableRel scoreGe := fun a b => inferInstanceAs (Decidable (b.score ≤ a.score))

instance : IsTotal SearchResult scoreGe := ⟨fun a b => le_total b.score a.score⟩

instance : IsTrans SearchResult scoreGe := ⟨fun _ _ _ h h2 => le_trans h2 h⟩

/-- Embedding of `np.argsort(similarities)[::-1]`: indices sorted by value
ascending, then reversed. NumPy's default sort leaves the order of equal
values unspecified; it is modelled with a stable sort. -/
def argsortDescend (xs : List ℚ) : List ℕ :=
  (((xs.enum).insertionSort sndLe).map Prod.fst).reverse

/-- Embedding of `DPRRetriever.search`: empty-index guard, cosine
similarities against every stored row, then the `top_k` indices by
descending similarity. Out-of-range lookups (impossible when `env.sim`
yields one score per stored row, as cosine similarity does) default to
`""`/`0`. -/
def dprSearch (env : Env) (st : DprState) (question : String) (top_k : ℕ) :
    List SearchResult :=
  match st.passage_embeddings with
  | none => []
  | some emb =>
    if st.passages.isEmpty then []
    else
      let similarities := env.sim question emb
      let topIndices := (argsortDescend similarities).take top_k
      topIndices.map (fun idx =>
        { passage := st.passages.getD idx ""
          score := similarities.getD idx 0
          metadata := st.passage_metadata.getD idx default
          doc_index := idx
          bm25_score := none
          dpr_score := none
          rrf_score := none
          fusion_weights := none })

/-- The rank dictionary `{result.get('doc_index', i): i + 1}` of
`ScoreFusion.rank_fusion`, as a partial lookup (`none` = key absent, which
the source treats as rank infinity). Every result carries a `doc_index` in
this embedding, so the `.get` default never fires. A Python dict
comprehension lets a later duplicate key overwrite an earlier one, hence the
recursion prefers the later occurrence. `pos` is the number of results
already consumed. -/
def docRanksAux (pos : ℕ) : List SearchResult → ℕ → Option ℕ
  | [], _ => none
  | r :: rs, d =>
    match docRanksAux (pos + 1) rs d with
    | some k => some k
    | none => if r.doc_index = d then some (pos + 1) else none

/-- Rank lookup for a whole result list (ranks start at 1). -/
def docRanks (results : List SearchResult) : ℕ → Option ℕ :=
  docRanksAux 0 results

/-- Key list of a Python dict built by successive insertion: the first
occurrence of a key fixes its position. -/
def pyDictKeys (ds : List ℕ) : List ℕ :=
  ds.foldl (fun acc d => if d ∈ acc then acc else acc ++ [d]) []

/-- The RRF score accumulated inside the `for doc_id in all_doc_ids` loop of
`ScoreFusion.rank_fusion`: `1 / (k + rank)` for each of the two rankings in
which the doc index appears (an absent rank — `float('inf')` in the source —
contributes nothing). -/
def rrfScoreOf (results1 results2 : List SearchResult) (k : ℚ) (d : ℕ) : ℚ :=
  (match docRanks results1 d with | some r => 1 / (k + (r : ℚ)) | none => 0) +
  (match docRanks results2 d with | some r => 1 / (k + (r : ℚ)) | none => 0)

/-- The `doc_id_to_result` dictionary of `rank_fusion`: the first result in
`results1 + results2` carrying the given doc index (`if doc_id not in
doc_id_to_result` keeps the first occurrence). -/
def firstResultFor (results : List SearchResult) (d : ℕ) : Option SearchResult :=
  (results.filter (fun r => r.doc_index = d)).head?

/-- One iteration of the final `for doc_id, rrf_score in sorted_docs` loop
of `rank_fusion`: look up the payload dictionary for the doc index and, when
found, copy it with the `rrf_score` key attached (the guard
`if doc_id in doc_id_to_result` skips absent keys). -/
def attachRrf (results : List SearchResult) (p : ℕ × ℚ) : Option SearchResult :=
  match firstResultFor results p.1 with
  | some r => some { r with rrf_score := some p.2 }
  | none => none

/-- Embedding of `ScoreFusion.rank_fusion` (reciprocal rank fusion). CPython
iterates `all_doc_ids` (a `set` union) in an implementation-defined order;
it is modelled here in insertion order: the doc indices of `results1` in
rank order followed by those appearing only in `results2` (this matches the
CPython iteration order on the concrete inputs used in the theorems below).
Python's `sorted(..., reverse=True)` is a stable descending sort, modelled
with a stable insertion sort under the reflexive descending comparison. -/
def rankFusion (results1 results2 : List SearchResult) (k : ℚ) : List SearchResult :=
  let allDocIds := pyDictKeys ((results1 ++ results2).map (fun r => r.doc_index))
  let rrfList := allDocIds.map (fun d => (d, rrfScoreOf results1 results2 k d))
  let sortedDocs := rrfList.insertionSort sndGe
  sortedDocs.filterMap (attachRrf (results1 ++ results2))

/-- The BM25 variant selected by `use_bm25_variant`. The source stores the
string and raises `ValueError` for anything other than `"bm25_plus"` and
`"bm25l"`; the configuration is modelled closed over the two valid values. -/
inductive Variant
  | bm25_plus
  | bm25l
  deriving DecidableEq

/-- The fusion method selected by `fusion_method` (`"weighted_sum"` or
`"rank_fusion"`; any other string raises `ValueError` in `search`). -/
inductive FMethod
  | weighted_sum
  | rank_fusion
  deriving DecidableEq

/-- Configuration fields of `AdvancedHybridRetriever.__init__`. -/
structure Cfg where
  use_bm25_variant : Variant
  bm25_weight : ℚ
  dpr_weight : ℚ
  fusion_method : FMethod
  normalize_scores : Bool
  deriving DecidableEq

/-- Mutable state of an `AdvancedHybridRetriever`: the stored documents and
metadata, the BM25 object (`None` initially and after `clear_documents`;
the object is fully determined by the tokenized corpus handed to its
constructor, so that corpus is what is stored), and the owned DPR state. -/
structure RState where
  documents : List String
  document_metadata : List Md
  bm25_corpus : Option (List (List String))
  dpr : DprState
  deriving DecidableEq

/-- The freshly constructed retriever state. -/
def RState.empty : RState := ⟨[], [], none, DprState.empty⟩

/-- Embedding of `AdvancedHybridRetriever.clear_documents` (which also calls
`DPRRetriever.clear_index`). -/
def clearDocuments (_st : RState) : RState := RState.empty

/-- Scoring dispatch: the stored BM25 object is `BM25Plus(corpus)` or
`BM25L(corpus)` according to the configured variant. -/
def getScoresVar (log : ℚ → ℚ) : Variant → List (List String) → List String → List ℚ
  | .bm25_plus, corpus, q => bm25PlusGetScores (mkBM25Plus log corpus) q
  | .bm25l, corpus, q => bm25LGetScores (mkBM25L log corpus) q

/-- Embedding of `AdvancedHybridRetriever.add_documents`. The Python method
extends `self.documents` and `self.document_metadata` and rebuilds the BM25
object from the full corpus before calling `DPRRetriever.add_passages`; when
the latter raises (encoder failure), the exception propagates with those
mutations already applied. The pair (result, post-state) therefore reports
the post-state in the error case as well. -/
def addDocuments (env : Env) (_cfg : Cfg) (st : RState) (documents : List String)
    (metadata : Option (List Md)) : Except Unit Unit × RState :=
  if documents.isEmpty then (.ok (), st)
  else
    let docs := st.documents ++ documents
    let md := metadata.getD (defaultAdvMd st.document_metadata.length documents.length)
    let mds := st.document_metadata ++ md
    let corpus := docs.map preprocessText
    let st1 : RState :=
      { documents := docs, document_metadata := mds
        bm25_corpus := some corpus, dpr := st.dpr }
    match dprAddPassages env st.dpr documents (some md) with
    | .ok dpr1 => (.ok (), { st1 with dpr := dpr1 })
    | .error e => (.error e, st1)

/-- The mode-conditioned fusion weights of `AdvancedHybridRetriever.search`:
`"normal"` (case-insensitively) selects BM25 weight 0.7 / DPR weight 0.3,
`"pro"` selects 0.3 / 0.7, anything else falls back to the instance
weights. -/
def modeWeights (cfg : Cfg) (mode : String) : ℚ × ℚ :=
  if pyLower mode = "normal" then (7/10, 3/10)
  else if pyLower mode = "pro" then (3/10, 7/10)
  else (cfg.bm25_weight, cfg.dpr_weight)

/-- Three-way zip, as Python `zip(a, b, c)` (truncating to the shortest). -/
def zip3 {α β γ : Type} (as : List α) (bs : List β) (cs : List γ) : List (α × β × γ) :=
  ((as.zip bs).zip cs).map (fun p => (p.1.1, p.1.2, p.2))

/-- Embedding of `AdvancedHybridRetriever.search`. Empty corpus returns `[]`.
Otherwise: mode weights, BM25 scores over the whole corpus, DPR search with
`top_k = len(documents)` scattered into a dense score vector by doc index
(unreferenced indices keep 0.0), then weighted-sum fusion (one result per
document, sorted by fused score descending) or rank fusion (BM25 ranking
fused with the DPR ranking, weights attached afterwards); finally
`results[:top_k]`. The `ValueError` of `weighted_sum_fusion` propagates as
`Except.error` (it can never fire here: both vectors have one entry per
document). Indexed accesses `bm25_scores[i]` / `dpr_scores[i]` are total in
Python for the same reason; they are modelled with a 0 default. -/
def advSearch (env : Env) (cfg : Cfg) (st : RState) (query : String)
    (top_k : ℕ) (mode : String) : Except Unit (List SearchResult) :=
  if st.documents.isEmpty then .ok []
  else
    let w := modeWeights cfg mode
    let queryTokens := preprocessText query
    let bm25Scores := getScoresVar env.log cfg.use_bm25_variant (st.bm25_corpus.getD []) queryTokens
    let dprResults := dprSearch env st.dpr query st.documents.length
    let dprScores := dprResults.foldl
      (fun acc r => if r.doc_index < st.documents.length then acc.set r.doc_index r.score else acc)
      (List.replicate st.documents.length 0)
    match cfg.fusion_method with
    | .weighted_sum =>
      match weightedSumFusion bm25Scores dprScores w.1 w.2 cfg.normalize_scores with
      | .error e => .error e
      | .ok fusedScores =>
        let results := (zip3 st.documents st.document_metadata fusedScores).enum.map
          (fun p =>
            { passage := p.2.1
              score := p.2.2.2
              bm25_score := some (bm25Scores.getD p.1 0)
              dpr_score := some (dprScores.getD p.1 0)
              metadata := p.2.2.1
              doc_index := p.1
              rrf_score := none
              fusion_weights := some w })
        .ok ((results.insertionSort scoreGe).take top_k)
    | .rank_fusion =>
      let bm25Results := (zip3 st.documents st.document_metadata bm25Scores).enum.map
        (fun p =>
          { passage := p.2.1
            score := p.2.2.2
            metadata := p.2.2.1
            doc_index := p.1
            bm25_score := none
            dpr_score := none
            rrf_score := none
            fusion_weights := none })
      let sortedBm := bm25Results.insertionSort scoreGe
      let fused := rankFusion sortedBm dprResults 60
      let withWeights := fused.map (fun r => { r with fusion_weights := some w })
      .ok (withWeights.take top_k)

/-- State of a `VectorStore` constructed with `use_advanced_retriever=True`
(as `routes.py` does). The contents of the Chroma collection and its
sentence-transformer embeddings are external storage never read back on the
retrieval paths modelled here, so they are not part of this state; the
validation error path of `collection.add`, which fires before the retriever
update, IS modelled (see `collectionAddCheck`). -/
structure VState where
  advanced_retriever : RState
  deriving DecidableEq

/-- Result dictionary as formatted by `VectorStore.similarity_search` on the
advanced path: `distance = 1.0 - score`, raw scores with a `0.0` default,
and the fused score. -/
structure Formatted where
  content : String
  metadata : Md
  distance : ℚ
  bm25_score : ℚ
  dpr_score : ℚ
  fused_score : ℚ
  fusion_weights : Option (ℚ × ℚ)
  deriving DecidableEq

/-- Validation performed by the external `chromadb` library inside the
`self.collection.add(embeddings, documents, metadatas, ids)` call of
`VectorStore.add_documents`, before anything is inserted: the record-set
lists must all have one entry per id, and every metadata record must be a
non-empty dict; a violation raises `ValueError` and the collection is left
untouched. In `VectorStore.add_documents` the embeddings, documents and ids
lists each have one entry per text by construction (`embed_documents`
returns one row per text, `ids` is one fresh uuid per text), so the check
reduces to the two metadata conditions modelled here. -/
def collectionAddCheck (texts : List String) (metadatas : List Md) :
    Except Unit Unit :=
  if metadatas.length = texts.length
      ∧ ∀ m ∈ metadatas, m.document_id ≠ none ∨ m.rest ≠ []
  then .ok () else .error ()

/-- The metadata-normalization block at the top of
`VectorStore.add_documents`. Note the truthiness tests of the source:
`if metadatas:` is false both for `None` and for the empty list (either way
per-text defaults `{"source": "uploaded_document", "document_id": ...}` are
synthesized), and `if document_id:` is false for `None` and for `""` (only
a truthy id is written into the supplied records). -/
def vsResolvedMetadatas (texts : List String) (metadatas : Option (List Md))
    (document_id : Option String) : List Md :=
  let didTruthy : Bool := match document_id with
    | some d => d != ""
    | none => false
  match metadatas with
  | none =>
    texts.map (fun _ =>
      ({ document_id := document_id, rest := [("source", "uploaded_document")] } : Md))
  | some [] =>
    texts.map (fun _ =>
      ({ document_id := document_id, rest := [("source", "uploaded_document")] } : Md))
  | some ms =>
    if didTruthy then ms.map (fun m => { m with document_id := document_id }) else ms

/-- Embedding of `VectorStore.add_documents`: empty-texts short-circuit,
metadata normalization, the `collection.add` call whose external validation
(`collectionAddCheck`) raises `ValueError` before the retriever is touched,
then the advanced-retriever update, returning `len(texts)` on success. The
stored collection contents and the uuid values are external and not
modelled. -/
def vsAddDocuments (env : Env) (cfg : Cfg) (st : VState) (texts : List String)
    (metadatas : Option (List Md)) (document_id : Option String) :
    Except Unit ℕ × VState :=
  if texts.isEmpty then (.ok 0, st)
  else
    let mds := vsResolvedMetadatas texts metadatas document_id
    match collectionAddCheck texts mds with
    | .error e => (.error e, st)
    | .ok _ =>
      match addDocuments env cfg st.advanced_retriever texts (some mds) with
      | (.ok _, r1) => (.ok texts.length, { advanced_retriever := r1 })
      | (.error e, r1) => (.error e, { advanced_retriever := r1 })

/-- Formatting of one advanced-retriever result by
`VectorStore.similarity_search`. -/
def formatResult (r : SearchResult) : Formatted :=
  { content := r.passage
    metadata := r.metadata
    distance := 1 - r.score
    bm25_score := r.bm25_score.getD 0
    dpr_score := r.dpr_score.getD 0
    fused_score := r.score
    fusion_weights := r.fusion_weights }

/-- Embedding of `VectorStore.similarity_search` on the advanced-retriever
path. The source accepts `document_ids` but, when the advanced retriever is
non-empty, calls `AdvancedHybridRetriever.search(query, top_k=k, mode=mode)`
WITHOUT passing `document_ids`; only the empty-retriever Chroma fallback
(external) receives the filter. The formatted fallback results are outside
the model, so the fallback branch returns the raw `env.chromaFallback`
payload formatted the same way. -/
def vsSimilaritySearch (env : Env) (cfg : Cfg) (st : VState) (query : String)
    (k : ℕ) (document_ids : Option (List String)) (mode : String) :
    Except Unit (List Formatted) :=
  if 0 < st.advanced_retriever.documents.length then
    match advSearch env cfg st.advanced_retriever query k mode with
    | .error e => .error e
    | .ok results => .ok (results.map formatResult)
  else
    .ok ((env.chromaFallback query k document_ids).map formatResult)

/-- Configuration of `NeuralQALayer` (defaults: threshold 0.1, top-k 3). -/
structure QaCfg where
  confidence_threshold : ℚ
  top_k_answers : ℕ
  deriving DecidableEq

/-- Output of one `self.qa_pipeline` invocation: the answer text, the
confidence score, and character offsets into the passage. -/
structure ReaderOut where
  answer : String
  score : ℚ
  start : ℕ
  stop : ℕ
  deriving DecidableEq

/-- An answer-span dictionary as built by
`NeuralQALayer.extract_answer_spans`. -/
structure Span where
  answer_text : String
  confidence : ℚ
  retrieval_score : ℚ
  combined_score : ℚ
  start_position : ℕ
  end_position : ℕ
  passage_index : ℕ
  passage_text : String
  context_window : String
  deriving DecidableEq

/-- First `while` loop of `NeuralQALayer._get_context_window`: decrement the
index while it is positive and does not sit on a space. An out-of-range
index (which would raise `IndexError` in Python but is unreachable for
reader offsets lying inside the passage, as the HF pipeline guarantees)
reads as a space and stops. -/
def moveToSpaceLeft (cs : List Char) : ℕ → ℕ
  | 0 => 0
  | i + 1 => if cs.getD (i + 1) ' ' = ' ' then i + 1 else moveToSpaceLeft cs i

/-- Worker for `moveToSpaceRight`, running on the structural fuel
`cs.length - i` (the loop stops at the latest when the index reaches the
length, so the fuel never runs out early). -/
def moveToSpaceRightAux (cs : List Char) : ℕ → ℕ → ℕ
  | 0, i => i
  | fuel + 1, i =>
    if h : i < cs.length then
      (if cs.get ⟨i, h⟩ = ' ' then i else moveToSpaceRightAux cs fuel (i + 1))
    else i

/-- Second `while` loop of `_get_context_window`: increment the index while
it is below the length and does not sit on a space. -/
def moveToSpaceRight (cs : List Char) (i : ℕ) : ℕ :=
  moveToSpaceRightAux cs (cs.length - i) i

/-- Python slice `s[a:b]` on the character list of a string. -/
def pySlice (cs : List Char) (a b : ℕ) : String :=
  String.mk ((cs.take b).drop a)

/-- Embedding of `NeuralQALayer._get_context_window` with its default
`window_size=100`: expand the answer range by 100 characters on each side
(clamped to the passage), snap both ends to the nearest space, strip, and
mark truncation with leading/trailing `"..."`. -/
def contextWindow (passage : String) (start_pos end_pos : ℕ) : String :=
  let cs := passage.data
  let windowSize := 100
  let contextStart0 := start_pos - windowSize
  let contextEnd0 := min cs.length (end_pos + windowSize)
  let contextStart := moveToSpaceLeft cs contextStart0
  let contextEnd := moveToSpaceRight cs contextEnd0
  let context := pyStrip (pySlice cs contextStart contextEnd)
  let context1 := if 0 < contextStart then "..." ++ context else context
  if contextEnd < cs.length then context1 ++ "..." else context1

/-- Embedding of the expression
`passage_scores[i] if passage_scores and i < len(passage_scores) else 1.0`:
`if passage_scores` is falsy for `None` and for the empty list. -/
def retrievalScore (passage_scores : Option (List ℚ)) (i : ℕ) : ℚ :=
  match passage_scores with
  | some l => if l ≠ [] ∧ i < l.length then l.getD i 0 else 1
  | none => 1

/-- The answer-span dictionary assembled inside `extract_answer_spans` for
passage `i` from a surviving reader output `r`:
`combined_score = confidence * (1 + retrieval_score)`. -/
def mkSpan (passage_scores : Option (List ℚ)) (i : ℕ) (passage : String)
    (r : ReaderOut) : Span :=
  let rs := retrievalScore passage_scores i
  { answer_text := pyStrip r.answer
    confidence := r.score
    retrieval_score := rs
    combined_score := r.score * (1 + rs)
    start_position := r.start
    end_position := r.stop
    passage_index := i
    passage_text := passage
    context_window := contextWindow passage r.start r.stop }

/-- The per-passage loop of `NeuralQALayer.extract_answer_spans`: run the
reader on each passage (a reader exception, modelled as `none`, is logged
and skipped), and append a span whenever
`confidence >= confidence_threshold and answer_text.strip()`. -/
def collectSpans (reader : String → String → Option ReaderOut) (cfg : QaCfg)
    (question : String) (passages : List String)
    (passage_scores : Option (List ℚ)) : List Span :=
  passages.enum.foldl
    (fun acc p =>
      match reader question p.2 with
      | none => acc
      | some r =>
        if cfg.confidence_threshold ≤ r.score ∧ pyStrip r.answer ≠ "" then
          acc ++ [mkSpan passage_scores p.1 p.2 r]
        else acc)
    []

/-- The stable descending comparison used for `answer_spans.sort(key=...,
reverse=True)`. -/
def spanGe (a b : Span) : Prop :=
  b.combined_score ≤ a.combined_score

instance : DecidableRel spanGe :=
  fun a b => inferInstanceAs (Decidable (b.combined_score ≤ a.combined_score))

instance : IsTotal Span spanGe := ⟨fun a b => le_total b.combined_score a.combined_score⟩

instance : IsTrans Span spanGe := ⟨fun _ _ _ h h2 => le_trans h2 h⟩

/-- Embedding of `NeuralQALayer.extract_answer_spans`: empty passage list
short-circuits to `[]`; otherwise collect the surviving spans, sort by
`combined_score` descending (stable), and cap to `top_k_answers`. -/
def extractAnswerSpans (reader : String → String → Option ReaderOut)
    (cfg : QaCfg) (question : String) (passages : List String)
    (passage_scores : Option (List ℚ)) : List Span :=
  if passages.isEmpty then []
  else
    ((collectSpans reader cfg question passages passage_scores).insertionSort spanGe).take
      cfg.top_k_answers

/-- Configuration used by `VectorStore.__init__` for the advanced retriever
(`bm25_plus`, weights 0.4/0.6, weighted sum, normalization on). -/
def routesCfg : Cfg :=
  { use_bm25_variant := .bm25_plus
    bm25_weight := 2/5
    dpr_weight := 3/5
    fusion_method := .weighted_sum
    normalize_scores := true }

/-- Environment whose passage encoder always fails, as in scenario S7 of the
spec (it also fixes trivial stand-ins for the other capabilities). -/
def failEncEnv : Env :=
  { log := id
    encodePassages := fun _ => .error ()
    sim := fun _ _ => []
    chromaFallback := fun _ _ _ => [] }

/-- Environment whose passage encoder succeeds with one-dimensional rows and
whose similarity stand-in scores every row 0. -/
def okEncEnv : Env :=
  { log := id
    encodePassages := fun ts => .ok (ts.map (fun _ => [1]))
    sim := fun _ rows => rows.map (fun _ => 0)
    chromaFallback := fun _ _ _ => [] }

/-- Claim C1 (code bug): `add_documents` is NOT atomic. With an encoder that
fails on the batch, the call raises, yet the retriever is left with the two
new documents and their metadata stored and the BM25 index rebuilt while the
dense index still has no rows: the pre-call state is not restored and the
passage count no longer equals the dense row count. -/
theorem add_documents_not_atomic :
    (addDocuments failEncEnv routesCfg RState.empty ["aa", "bb"] none).1 = .error ()
    ∧ (addDocuments failEncEnv routesCfg RState.empty ["aa", "bb"] none).2.documents.length = 2
    ∧ (addDocuments failEncEnv routesCfg RState.empty ["aa", "bb"] none).2.dpr.passages.length = 0
    ∧ (addDocuments failEncEnv routesCfg RState.empty ["aa", "bb"] none).2.dpr.passage_embeddings = none
    ∧ (addDocuments failEncEnv routesCfg RState.empty ["aa", "bb"] none).2 ≠ RState.empty := by
  decide

/-- Claim C8 (confirmed): every retrieval operation on an empty corpus — the
freshly constructed retriever, the retriever after `clear_documents`, the
fresh DPR index, and the DPR index after `clear_index` — returns `[]` and
raises no error, for every query, `k`, mode and environment. -/
theorem empty_corpus_search_returns_empty (env : Env) (cfg : Cfg) (st : RState)
    (d : DprState) (query : String) (k : ℕ) (mode : String) :
    advSearch env cfg RState.empty query k mode = .ok []
    ∧ advSearch env cfg (clearDocuments st) query k mode = .ok []
    ∧ dprSearch env DprState.empty query k = []
    ∧ dprSearch env (dprClearIndex d) query k = [] :=
  ⟨rfl, rfl, rfl, rfl⟩

/-- Vector-store state holding two passages, the first tagged
`document_id="d1"` and the second `document_id="d2"`, ingested through the
public `VectorStore.add_documents` (scenario S3 of the spec). -/
def stTwoDocs : VState :=
  (vsAddDocuments okEncEnv routesCfg ⟨RState.empty⟩ ["alpha beta", "gamma delta"]
    (some [{ document_id := some "d1", rest := [] },
           { document_id := some "d2", rest := [] }]) none).2

unseal Rat.add Rat.mul Rat.sub Rat.inv Rat.ofScientific in
/-- Claim C2 (code bug): the public `similarity_search` accepts
`document_ids` but the advanced-retriever branch never passes the filter to
`AdvancedHybridRetriever.search`. Searching with `document_ids=["d2"]`
returns the passage whose `document_id` is `"d1"` as well, although
`"d1" ∉ ["d2"]`. -/
theorem similarity_search_ignores_document_ids :
    (vsSimilaritySearch okEncEnv routesCfg stTwoDocs "gamma" 10 (some ["d2"]) "normal").map
        (fun out => out.map (fun r => r.metadata.document_id))
      = .ok [some "d2", some "d1"]
    ∧ "d1" ∉ ["d2"] := by
  decide

theorem foldl_min_le_init (xs : List ℚ) (a : ℚ) : xs.foldl min a ≤ a := by
  induction xs generalizing a with
  | nil => exact le_refl a
  | cons x t ih => exact le_trans (ih (min a x)) (min_le_left a x)

theorem foldl_min_le_mem (xs : List ℚ) (a x : ℚ) (hx : x ∈ xs) : xs.foldl min a ≤ x := by
  induction xs generalizing a with
  | nil => cases hx
  | cons y t ih =>
    rcases List.mem_cons.mp hx with h | h
    · subst h
      exact le_trans (foldl_min_le_init t (min a x)) (min_le_right a x)
    · exact ih (min a y) h

theorem foldl_min_mem (xs : List ℚ) (a : ℚ) : xs.foldl min a = a ∨ xs.foldl min a ∈ xs := by
  induction xs generalizing a with
  | nil => exact Or.inl rfl
  | cons x t ih =>
    rcases ih (min a x) with h | h
    · rcases min_choice a x with hc | hc
      · exact Or.inl (by rw [List.foldl_cons, h, hc])
      · exact Or.inr (by rw [List.foldl_cons, h, hc]; exact List.mem_cons_self x t)
    · exact Or.inr (List.mem_cons_of_mem x h)

theorem foldl_max_init_le (xs : List ℚ) (a : ℚ) : a ≤ xs.foldl max a := by
  induction xs generalizing a with
  | nil => exact le_refl a
  | cons x t ih => exact le_trans (le_max_left a x) (ih (max a x))

theorem foldl_max_mem_le (xs : List ℚ) (a x : ℚ) (hx : x ∈ xs) : x ≤ xs.foldl max a := by
  induction xs generalizing a with
  | nil => cases hx
  | cons y t ih =>
    rcases List.mem_cons.mp hx with h | h
    · subst h
      exact le_trans (le_max_right a x) (foldl_max_init_le t (max a x))
    · exact ih (max a y) h

theorem foldl_max_mem (xs : List ℚ) (a : ℚ) : xs.foldl max a = a ∨ xs.foldl max a ∈ xs := by
  induction xs generalizing a with
  | nil => exact Or.inl rfl
  | cons x t ih =>
    rcases ih (max a x) with h | h
    · rcases max_choice a x with hc | hc
      · exact Or.inl (by rw [List.foldl_cons, h, hc])
      · exact Or.inr (by rw [List.foldl_cons, h, hc]; exact List.mem_cons_self x t)
    · exact Or.inr (List.mem_cons_of_mem x h)

theorem pyMin_mem (l : List ℚ) (h : l ≠ []) : pyMin l ∈ l := by
  match l with
  | [] => exact absurd rfl h
  | x :: xs =>
    rcases foldl_min_mem xs x with h1 | h1
    · rw [pyMin, h1]; exact List.mem_cons_self x xs
    · rw [pyMin]; exact List.mem_cons_of_mem x h1

theorem pyMin_le (l : List ℚ) (x : ℚ) (hx : x ∈ l) : pyMin l ≤ x := by
  match l with
  | [] => cases hx
  | y :: ys =>
    rcases List.mem_cons.mp hx with h | h
    · subst h; exact foldl_min_le_init ys x
    · exact foldl_min_le_mem ys y x h

theorem pyMax_mem (l : List ℚ) (h : l ≠ []) : pyMax l ∈ l := by
  match l with
  | [] => exact absurd rfl h
  | x :: xs =>
    rcases foldl_max_mem xs x with h1 | h1
    · rw [pyMax, h1]; exact List.mem_cons_self x xs
    · rw [pyMax]; exact List.mem_cons_of_mem x h1

theorem le_pyMax (l : List ℚ) (x : ℚ) (hx : x ∈ l) : x ≤ pyMax l := by
  match l with
  | [] => cases hx
  | y :: ys =>
    rcases List.mem_cons.mp hx with h | h
    · subst h; exact foldl_max_init_le ys x
    · exact foldl_max_mem_le ys y x h

/-- Claim C9 (confirmed): `min_max_normalize` preserves the length; lists of
length ≤ 1 pass through unchanged; a longer all-equal list maps to all ones;
and on input with at least two distinct values every output lies in `[0,1]`
with at least one `0` and at least one `1`. -/
theorem min_max_normalize_spec (scores : List ℚ) :
    (minMaxNormalize scores).length = scores.length
    ∧ (scores.length ≤ 1 → minMaxNormalize scores = scores)
    ∧ (1 < scores.length → (∀ x ∈ scores, ∀ y ∈ scores, x = y) →
        minMaxNormalize scores = List.replicate scores.length 1)
    ∧ ((∃ x ∈ scores, ∃ y ∈ scores, x ≠ y) →
        (∀ z ∈ minMaxNormalize scores, 0 ≤ z ∧ z ≤ 1)
        ∧ (0 : ℚ) ∈ minMaxNormalize scores
        ∧ (1 : ℚ) ∈ minMaxNormalize scores) := by
  refine ⟨?_, ?_, ?_, ?_⟩
  · unfold minMaxNormalize
    dsimp only
    split
    · rfl
    · split
      · exact List.length_replicate _ _
      · exact List.length_map _ _
  · intro hlen
    unfold minMaxNormalize
    dsimp only
    split
    · rfl
    · rename_i hcond
      exfalso
      rcases scores with _ | ⟨x, _ | ⟨y, t⟩⟩
      · simp at hcond
      · simp at hcond
      · simp at hlen
  · intro hlen hall
    have hne : scores ≠ [] := by
      intro h; rw [h] at hlen; simp at hlen
    have heq : pyMax scores = pyMin scores :=
      hall _ (pyMax_mem scores hne) _ (pyMin_mem scores hne)
    unfold minMaxNormalize
    dsimp only
    split
    · rename_i hcond
      exfalso
      rcases scores with _ | ⟨x, _ | ⟨y, t⟩⟩
      · simp at hlen
      · simp at hlen
      · simp at hcond
    · split
      · rfl
      · rename_i hc
        exact absurd (beq_iff_eq.mpr heq) (by simpa using hc)
  · rintro ⟨x, hx, y, hy, hxy⟩
    have hne : scores ≠ [] := by rintro rfl; cases hx
    have hlt : pyMin scores < pyMax scores := by
      rcases lt_or_gt_of_ne hxy with h | h
      · exact lt_of_le_of_lt (pyMin_le scores x hx) (lt_of_lt_of_le h (le_pyMax scores y hy))
      · exact lt_of_le_of_lt (pyMin_le scores y hy) (lt_of_lt_of_le h (le_pyMax scores x hx))
    have hlen2 : 1 < scores.length := by
      rcases scores with _ | ⟨a, _ | ⟨b, t⟩⟩
      · cases hx
      · have hxa : x = a := by simpa using hx
        have hya : y = a := by simpa using hy
        exact absurd (hxa.trans hya.symm) hxy
      · simp
    have hcond : ¬ (scores.isEmpty || scores.length == 1) = true := by
      rcases scores with _ | ⟨a, _ | ⟨b, t⟩⟩
      · cases hx
      · simp at hlen2
      · simp
    have hd : (0 : ℚ) < pyMax scores - pyMin scores := sub_pos.mpr hlt
    have hdisp : minMaxNormalize scores
        = scores.map (fun s => (s - pyMin scores) / (pyMax scores - pyMin scores)) := by
      unfold minMaxNormalize
      dsimp only
      rw [if_neg hcond, if_neg (by simpa using ne_of_gt hlt)]
    refine ⟨?_, ?_, ?_⟩
    · intro z hz
      rw [hdisp] at hz
      rcases List.mem_map.mp hz with ⟨s, hs, hzs⟩
      subst hzs
      constructor
      · exact div_nonneg (sub_nonneg.mpr (pyMin_le scores s hs)) (le_of_lt hd)
      · rw [div_le_one hd]
        exact sub_le_sub_right (le_pyMax scores s hs) _
    · rw [hdisp]
      refine List.mem_map.mpr ⟨pyMin scores, pyMin_mem scores hne, ?_⟩
      rw [sub_self, zero_div]
    · rw [hdisp]
      refine List.mem_map.mpr ⟨pyMax scores, pyMax_mem scores hne, ?_⟩
      exact div_self (ne_of_gt hd)

unseal Rat.add Rat.mul Rat.sub Rat.inv Rat.ofScientific in
/-- Witness for claim C9: the theorem applied to the concrete inputs `[5]`
(passthrough) and `[0, 2]` (distinct values, so `1` occurs in the output). -/
theorem min_max_normalize_spec_witness :
    minMaxNormalize [(5 : ℚ)] = [(5 : ℚ)] ∧ (1 : ℚ) ∈ minMaxNormalize [(0 : ℚ), 2] :=
  ⟨(min_max_normalize_spec [(5 : ℚ)]).2.1 (by decide),
   ((min_max_normalize_spec [(0 : ℚ), 2]).2.2.2
     ⟨0, by simp, 2, by simp, by norm_num⟩).2.2⟩

theorem advSearch_fusion_weights (env : Env) (cfg : Cfg) (st : RState) (query : String)
    (top_k : ℕ) (mode : String) (out : List SearchResult)
    (h : advSearch env cfg st query top_k mode = .ok out) :
    ∀ r ∈ out, r.fusion_weights = some (modeWeights cfg mode) := by
  intro r hr
  unfold advSearch at h
  split at h
  · cases h
    cases hr
  · dsimp only at h
    split at h
    · split at h
      · cases h
      · cases h
        rcases List.mem_map.mp
          ((List.mem_insertionSort _).mp (List.mem_of_mem_take hr)) with ⟨p, _, rfl⟩
        rfl
    · cases h
      rcases List.mem_map.mp (List.mem_of_mem_take hr) with ⟨x, _, rfl⟩
      rfl

/-- Claim C5 (confirmed): on a non-empty corpus, a mode string whose Python
lowercasing is `"normal"` makes `AdvancedHybridRetriever.search` fuse with
weights BM25 = 0.7 / DPR = 0.3, lowercase `"pro"` selects 0.3 / 0.7, and any
other mode string selects the instance-default weights; the selected weights
are attached to every returned result. -/
theorem mode_weights_spec (env : Env) (cfg : Cfg) (st : RState) (query : String)
    (top_k : ℕ) (mode : String) (out : List SearchResult)
    (_hne : st.documents ≠ [])
    (h : advSearch env cfg st query top_k mode = .ok out) :
    (pyLower mode = "normal" → ∀ r ∈ out, r.fusion_weights = some (7/10, 3/10))
    ∧ (pyLower mode = "pro" → ∀ r ∈ out, r.fusion_weights = some (3/10, 7/10))
    ∧ (pyLower mode ≠ "normal" → pyLower mode ≠ "pro" →
        ∀ r ∈ out, r.fusion_weights = some (cfg.bm25_weight, cfg.dpr_weight)) := by
  have hw := advSearch_fusion_weights env cfg st query top_k mode out h
  refine ⟨?_, ?_, ?_⟩
  · intro hmode r hr
    rw [hw r hr]
    unfold modeWeights
    rw [if_pos hmode]
  · intro hmode r hr
    have hne1 : pyLower mode ≠ "normal" := by rw [hmode]; decide
    rw [hw r hr]
    unfold modeWeights
    rw [if_neg hne1, if_pos hmode]
  · intro h1 h2 r hr
    rw [hw r hr]
    unfold modeWeights
    rw [if_neg h1, if_neg h2]

/-- Top result of `advSearch` on `stTwoDocs` for the query `"gamma"` in mode
`"NORMAL"` (checked concretely in the witness below). -/
def rModeTop : SearchResult :=
  { passage := "gamma delta", score := 1, metadata := ⟨some "d2", []⟩, doc_index := 1
    bm25_score := some 2, dpr_score := some 0, rrf_score := none
    fusion_weights := some (7/10, 3/10) }

/-- Second result of the same concrete search. -/
def rModeSnd : SearchResult :=
  { passage := "alpha beta", score := 3/10, metadata := ⟨some "d1", []⟩, doc_index := 0
    bm25_score := some 0, dpr_score := some 0, rrf_score := none
    fusion_weights := some (7/10, 3/10) }

unseal Rat.add Rat.mul Rat.sub Rat.inv Rat.ofScientific in
/-- Witness for claim C5: the theorem applied to the concrete two-passage
state with the uppercase mode string `"NORMAL"`, discharging the non-empty
corpus and successful-search hypotheses by evaluation. -/
theorem mode_weights_spec_witness : rModeTop.fusion_weights = some (7/10, 3/10) :=
  (mode_weights_spec okEncEnv routesCfg stTwoDocs.advanced_retriever "gamma" 10 "NORMAL"
      [rModeTop, rModeSnd] (by decide) (by decide)).1 (by decide) rModeTop
    (List.mem_cons_self _ _)

theorem foldl_if_sum {α : Type} (p : α → Prop) [DecidablePred p] (f : α → ℚ)
    (l : List α) (a : ℚ) :
    l.foldl (fun s t => if p t then s + f t else s) a
      = a + (l.map (fun t => if p t then f t else 0)).sum := by
  induction l generalizing a with
  | nil => simp
  | cons x xs ih =>
    by_cases hx : p x
    · simp only [List.foldl_cons, List.map_cons, List.sum_cons, if_pos hx, ih]
      ring
    · simp only [List.foldl_cons, List.map_cons, List.sum_cons, if_neg hx, ih]
      ring

theorem getD_map {α β : Type} (f : α → β) (l : List α) (i : ℕ) (d : β) (d' : α)
    (h : i < l.length) :
    (l.map f).getD i d = f (l.getD i d') := by
  rw [List.getD_eq_getElem _ _ (by simpa using h), List.getD_eq_getElem _ _ h,
    List.getElem_map]

/-- Claim C6 (confirmed): for every document index `i` of the corpus, the
BM25+ score is the sum over query tokens present in document `i` of
`idf[t] * (tf * (k1 + 1) / (tf + k1 * (1 - b + b * doc_len / avgdl)) + delta)`
(`delta` inside the IDF-weighted factor), and the BM25L score is the sum of
`idf[t] * ((k1 + 1) * ctd / (k1 + ctd)) + delta` with
`ctd = tf / (1 - b + b * doc_len / avgdl)` (`delta` outside the IDF factor);
tokens absent from the document contribute zero to either sum. -/
theorem bm25_scores_term_sum (m : BM25) (query : List String) (i : ℕ)
    (h : i < m.corpus.length) :
    (bm25PlusGetScores m query).getD i 0
      = (query.map (fun t =>
          if (m.corpus.getD i []).count t = 0 then 0
          else
            m.idf t *
              (((m.corpus.getD i []).count t : ℚ) * (m.k1 + 1) /
                  (((m.corpus.getD i []).count t : ℚ)
                    + m.k1 * (1 - m.b + m.b * (((m.corpus.getD i []).length : ℚ) / m.avgdl)))
                + m.delta))).sum
    ∧ (bm25LGetScores m query).getD i 0
      = (query.map (fun t =>
          if (m.corpus.getD i []).count t = 0 then 0
          else
            m.idf t *
                ((m.k1 + 1) *
                    (((m.corpus.getD i []).count t : ℚ) /
                      (1 - m.b + m.b * (((m.corpus.getD i []).length : ℚ) / m.avgdl))) /
                  (m.k1
                    + ((m.corpus.getD i []).count t : ℚ) /
                        (1 - m.b + m.b * (((m.corpus.getD i []).length : ℚ) / m.avgdl))))
              + m.delta)).sum := by
  constructor
  · rw [bm25PlusGetScores, getD_map _ _ _ _ [] h,
      foldl_if_sum (fun t => (m.corpus.getD i []).count t ≠ 0) _ query 0, zero_add]
    refine congrArg List.sum (List.map_congr_left ?_)
    intro t _
    by_cases hc : (m.corpus.getD i []).count t = 0
    · rw [if_neg (by simpa using hc), if_pos hc]
    · rw [if_pos hc, if_neg hc, bm25PlusTerm]
  · rw [bm25LGetScores, getD_map _ _ _ _ [] h,
      foldl_if_sum (fun t => (m.corpus.getD i []).count t ≠ 0) _ query 0, zero_add]
    refine congrArg List.sum (List.map_congr_left ?_)
    intro t _
    by_cases hc : (m.corpus.getD i []).count t = 0
    · rw [if_neg (by simpa using hc), if_pos hc]
    · rw [if_pos hc, if_neg hc, bm25LTerm]

unseal Rat.add Rat.mul Rat.sub Rat.inv Rat.ofScientific in
/-- Witness for claim C6: the theorem applied to the one-document corpus
`[["aa", "bb"]]` and the query `["aa"]` (with the identity standing in for
the logarithm), then evaluated: BM25+ scores the document 2/3 and BM25L
scores it 5/6. -/
theorem bm25_scores_term_sum_witness :
    (bm25PlusGetScores (mkBM25Plus id [["aa", "bb"]]) ["aa"]).getD 0 0 = 2/3
    ∧ (bm25LGetScores (mkBM25L id [["aa", "bb"]]) ["aa"]).getD 0 0 = 5/6 := by
  have hp := bm25_scores_term_sum (mkBM25Plus id [["aa", "bb"]]) ["aa"] 0 (by decide)
  have hl := bm25_scores_term_sum (mkBM25L id [["aa", "bb"]]) ["aa"] 0 (by decide)
  exact ⟨by rw [hp.1]; decide, by rw [hl.2]; decide⟩

theorem collectSpans_go (reader : String → String → Option ReaderOut) (cfg : QaCfg)
    (question : String) (ps : Option (List ℚ)) (l : List (ℕ × String)) (acc : List Span) :
    l.foldl
        (fun a p =>
          match reader question p.2 with
          | none => a
          | some r =>
            if cfg.confidence_threshold ≤ r.score ∧ pyStrip r.answer ≠ "" then
              a ++ [mkSpan ps p.1 p.2 r]
            else a)
        acc
      = acc ++ l.filterMap
          (fun p =>
            match reader question p.2 with
            | none => none
            | some r =>
              if cfg.confidence_threshold ≤ r.score ∧ pyStrip r.answer ≠ "" then
                some (mkSpan ps p.1 p.2 r)
              else none) := by
  induction l generalizing acc with
  | nil => simp
  | cons p t ih =>
    simp only [List.foldl_cons, List.filterMap_cons]
    cases hr : reader question p.2 with
    | none => simp only [hr, ih]
    | some r =>
      by_cases hc : cfg.confidence_threshold ≤ r.score ∧ pyStrip r.answer ≠ ""
      · simp only [hr, if_pos hc, ih, List.append_assoc, List.singleton_append]
      · simp only [hr, if_neg hc, ih]

theorem collectSpans_eq (reader : String → String → Option ReaderOut) (cfg : QaCfg)
    (question : String) (passages : List String) (ps : Option (List ℚ)) :
    collectSpans reader cfg question passages ps
      = passages.enum.filterMap
          (fun p =>
            match reader question p.2 with
            | none => none
            | some r =>
              if cfg.confidence_threshold ≤ r.score ∧ pyStrip r.answer ≠ "" then
                some (mkSpan ps p.1 p.2 r)
              else none) := by
  unfold collectSpans
  simpa using collectSpans_go reader cfg question ps passages.enum []

theorem mem_collectSpans (reader : String → String → Option ReaderOut) (cfg : QaCfg)
    (question : String) (passages : List String) (ps : Option (List ℚ)) (s : Span) :
    s ∈ collectSpans reader cfg question passages ps
      ↔ ∃ i r, i < passages.length
          ∧ reader question (passages.getD i "") = some r
          ∧ cfg.confidence_threshold ≤ r.score
          ∧ pyStrip r.answer ≠ ""
          ∧ s = mkSpan ps i (passages.getD i "") r := by
  rw [collectSpans_eq, List.mem_filterMap]
  constructor
  · rintro ⟨⟨i, passage⟩, hp, hf⟩
    have hg : passages[i]? = some passage := List.mk_mem_enum_iff_getElem?.mp hp
    have hlen : i < passages.length := by
      rcases List.getElem?_eq_some.mp hg with ⟨hh, -⟩
      exact hh
    have hgd : passages.getD i "" = passage := by
      rw [List.getD_eq_getElem?_getD, hg]
      rfl
    cases hrd : reader question passage with
    | none => simp only [hrd] at hf; cases hf
    | some r =>
      simp only [hrd] at hf
      by_cases hc : cfg.confidence_threshold ≤ r.score ∧ pyStrip r.answer ≠ ""
      · rw [if_pos hc] at hf
        refine ⟨i, r, hlen, by rw [hgd]; exact hrd, hc.1, hc.2, ?_⟩
        rw [hgd]
        exact (Option.some_inj.mp hf).symm
      · rw [if_neg hc] at hf
        cases hf
  · rintro ⟨i, r, hlen, hrd, hc1, hc2, hs⟩
    have hget : passages[i]? = some (passages.getD i "") := by
      rw [List.getD_eq_getElem?_getD, List.getElem?_eq_getElem hlen]
      rfl
    refine ⟨(i, passages.getD i ""), List.mk_mem_enum_iff_getElem?.mpr hget, ?_⟩
    simp only [hrd]
    rw [if_pos ⟨hc1, hc2⟩, hs]

/-- Claim C7 (confirmed): `extract_answer_spans` keeps exactly the reader
outputs whose answer is non-empty after stripping and whose confidence is at
least the threshold; every kept span's `combined_score` equals
`confidence * (1 + retrieval_score)`; the returned list is sorted by
`combined_score` descending and has length at most `top_k_answers` (the
pre-cap sorted list holds every surviving span). -/
theorem extract_answer_spans_spec (reader : String → String → Option ReaderOut)
    (cfg : QaCfg) (question : String) (passages : List String) (ps : Option (List ℚ)) :
    (extractAnswerSpans reader cfg question passages ps).Pairwise spanGe
    ∧ (extractAnswerSpans reader cfg question passages ps).length ≤ cfg.top_k_answers
    ∧ (∀ s ∈ extractAnswerSpans reader cfg question passages ps,
        ∃ i r, i < passages.length
          ∧ reader question (passages.getD i "") = some r
          ∧ cfg.confidence_threshold ≤ r.score
          ∧ pyStrip r.answer ≠ ""
          ∧ s = mkSpan ps i (passages.getD i "") r
          ∧ s.combined_score = r.score * (1 + retrievalScore ps i))
    ∧ (∀ i r, i < passages.length → reader question (passages.getD i "") = some r →
        cfg.confidence_threshold ≤ r.score → pyStrip r.answer ≠ "" →
        mkSpan ps i (passages.getD i "") r
          ∈ (collectSpans reader cfg question passages ps).insertionSort spanGe) := by
  refine ⟨?_, ?_, ?_, ?_⟩
  · unfold extractAnswerSpans
    split
    · exact List.Pairwise.nil
    · exact List.Pairwise.sublist (List.take_sublist _ _)
        (List.sorted_insertionSort spanGe _)
  · unfold extractAnswerSpans
    split
    · simp
    · rw [List.length_take]
      exact min_le_left _ _
  · intro s hs
    unfold extractAnswerSpans at hs
    split at hs
    · cases hs
    · rcases (mem_collectSpans reader cfg question passages ps s).mp
        ((List.mem_insertionSort _).mp (List.mem_of_mem_take hs)) with
        ⟨i, r, h1, h2, h3, h4, h5⟩
      subst h5
      exact ⟨i, r, h1, h2, h3, h4, rfl, rfl⟩
  · intro i r hlen hrd hc1 hc2
    exact (List.mem_insertionSort _).mpr
      ((mem_collectSpans reader cfg question passages ps _).mpr
        ⟨i, r, hlen, hrd, hc1, hc2, rfl⟩)

/-- Reader stand-in used by the QA witnesses: answer = the whole passage,
confidence 1, character span `[0, 1)`. -/
def readerW : String → String → Option ReaderOut :=
  fun _ p => some { answer := p, score := 1, start := 0, stop := 1 }

/-- The default `NeuralQALayer` configuration of `vector_store.py`:
threshold 0.1, top-k 3. -/
def qaCfgW : QaCfg := { confidence_threshold := 1/10, top_k_answers := 3 }

unseal Rat.add Rat.mul Rat.sub Rat.inv Rat.ofScientific in
/-- Witness for claim C7: the theorem applied to a concrete reader and the
two-passage list, instantiating the length cap. -/
theorem extract_answer_spans_spec_witness :
    (extractAnswerSpans readerW qaCfgW "q" ["aa", "bb"] none).length ≤ 3 :=
  (extract_answer_spans_spec readerW qaCfgW "q" ["aa", "bb"] none).2.1

/-- Claim C10 (confirmed): when `passage_scores` is supplied but shorter
than the passage list, no out-of-range access happens — any span whose
passage index is beyond the supplied scores uses retrieval score `1.0`,
exactly as when no score is supplied. -/
theorem short_passage_scores_default (reader : String → String → Option ReaderOut)
    (cfg : QaCfg) (question : String) (passages : List String) (ps : List ℚ) :
    (∀ s ∈ extractAnswerSpans reader cfg question passages (some ps),
        ps.length ≤ s.passage_index → s.retrieval_score = 1)
    ∧ (∀ i, ps.length ≤ i → retrievalScore (some ps) i = retrievalScore none i) := by
  have hrs : ∀ i, ps.length ≤ i → retrievalScore (some ps) i = 1 := by
    intro i hi
    show (if ps ≠ [] ∧ i < ps.length then ps.getD i 0 else 1) = 1
    rw [if_neg]
    rintro ⟨-, hlt⟩
    omega
  constructor
  · intro s hs hidx
    unfold extractAnswerSpans at hs
    split at hs
    · cases hs
    · rcases (mem_collectSpans reader cfg question passages (some ps) s).mp
        ((List.mem_insertionSort _).mp (List.mem_of_mem_take hs)) with
        ⟨i, r, -, -, -, -, h5⟩
      subst h5
      exact hrs i hidx
  · intro i hi
    rw [hrs i hi]
    rfl

/-- The span produced for the first passage in the C10 witness scenario. -/
def spanW : Span :=
  { answer_text := "aa", confidence := 1, retrieval_score := 1, combined_score := 2
    start_position := 0, end_position := 1, passage_index := 0, passage_text := "aa"
    context_window := "aa" }

unseal Rat.add Rat.mul Rat.sub Rat.inv Rat.ofScientific in
/-- Witness for claim C10: the theorem applied with the empty supplied score
list (shorter than the two passages); the span at index 0 is in the output
and carries retrieval score 1. -/
theorem short_passage_scores_default_witness : spanW.retrieval_score = 1 :=
  (short_passage_scores_default readerW qaCfgW "q" ["aa", "bb"] []).1 spanW
    (by decide) (by decide)

theorem pyDictKeys_go_mem (l : List ℕ) :
    ∀ (acc : List ℕ) (x : ℕ),
      x ∈ l.foldl (fun acc d => if d ∈ acc then acc else acc ++ [d]) acc
        ↔ x ∈ acc ∨ x ∈ l := by
  induction l with
  | nil => intro acc x; simp
  | cons d t ih =>
    intro acc x
    rw [List.foldl_cons, ih]
    by_cases hd : d ∈ acc
    · rw [if_pos hd]
      simp only [List.mem_cons]
      constructor
      · tauto
      · rintro (h | rfl | h) <;> tauto
    · rw [if_neg hd]
      simp only [List.mem_append, List.mem_singleton, List.mem_cons]
      tauto

theorem pyDictKeys_go_nodup (l : List ℕ) :
    ∀ acc : List ℕ, acc.Nodup →
      (l.foldl (fun acc d => if d ∈ acc then acc else acc ++ [d]) acc).Nodup := by
  induction l with
  | nil => intro acc h; simpa using h
  | cons d t ih =>
    intro acc h
    rw [List.foldl_cons]
    by_cases hd : d ∈ acc
    · rw [if_pos hd]; exact ih acc h
    · rw [if_neg hd]
      refine ih _ (List.Nodup.append h (List.nodup_singleton d) ?_)
      intro a ha hd2
      rw [List.mem_singleton] at hd2
      subst hd2
      exact hd ha

theorem mem_pyDictKeys (l : List ℕ) (x : ℕ) : x ∈ pyDictKeys l ↔ x ∈ l := by
  unfold pyDictKeys
  rw [pyDictKeys_go_mem]
  simp

theorem pyDictKeys_nodup (l : List ℕ) : (pyDictKeys l).Nodup :=
  pyDictKeys_go_nodup l [] List.nodup_nil

theorem docRanksAux_eq_none (d : ℕ) :
    ∀ (l : List SearchResult) (pos : ℕ),
      docRanksAux pos l d = none ↔ d ∉ l.map SearchResult.doc_index := by
  intro l
  induction l with
  | nil => intro pos; simp [docRanksAux]
  | cons r t ih =>
    intro pos
    simp only [docRanksAux, List.map_cons, List.mem_cons]
    cases ha : docRanksAux (pos + 1) t d with
    | some kk =>
      have hd : d ∈ t.map SearchResult.doc_index := by
        by_contra hnd
        rw [(ih (pos + 1)).mpr hnd] at ha
        cases ha
      simp [hd]
    | none =>
      have hnd : d ∉ t.map SearchResult.doc_index := (ih (pos + 1)).mp ha
      by_cases hr : r.doc_index = d
      · simp [hr, hnd]
      · have hr2 : ¬ d = r.doc_index := fun h => hr h.symm
        simp [hr, hnd, hr2]

theorem docRanksAux_of_nodup (d : ℕ) :
    ∀ (l : List SearchResult) (pos : ℕ),
      (l.map SearchResult.doc_index).Nodup → d ∈ l.map SearchResult.doc_index →
      docRanksAux pos l d
        = some (pos + (l.map SearchResult.doc_index).indexOf d + 1) := by
  intro l
  induction l with
  | nil => intro pos _ hd; cases hd
  | cons r t ih =>
    intro pos hnd hd
    rw [List.map_cons] at hnd hd
    have hhead : r.doc_index ∉ t.map SearchResult.doc_index :=
      (List.nodup_cons.mp hnd).1
    have htail : (t.map SearchResult.doc_index).Nodup :=
      (List.nodup_cons.mp hnd).2
    simp only [docRanksAux]
    rcases List.mem_cons.mp hd with hcase | hcase
    · have hnin : d ∉ t.map SearchResult.doc_index := by
        rw [hcase]; exact hhead
      rw [(docRanksAux_eq_none d t (pos + 1)).mpr hnin]
      rw [List.map_cons, ← hcase, List.indexOf_cons_self]
      show (if d = d then some (pos + 1) else none) = some (pos + 0 + 1)
      rw [if_pos rfl]
    · have hne : r.doc_index ≠ d := by
        intro he
        exact hhead (he ▸ hcase)
      rw [ih (pos + 1) htail hcase]
      rw [List.map_cons, List.indexOf_cons_ne _ hne]
      exact congrArg some (by omega)

/-- Rank of a doc index inside one ranked list (1-based position of its
first occurrence, as the claims describe it). -/
def rankInList (results : List SearchResult) (d : ℕ) : ℕ :=
  (results.map SearchResult.doc_index).indexOf d + 1

theorem docRanks_of_nodup (l : List SearchResult) (d : ℕ)
    (h : (l.map SearchResult.doc_index).Nodup) (hd : d ∈ l.map SearchResult.doc_index) :
    docRanks l d = some (rankInList l d) := by
  rw [docRanks, docRanksAux_of_nodup d l 0 h hd, rankInList]
  exact congrArg some (by omega)

theorem docRanks_eq_none (l : List SearchResult) (d : ℕ)
    (hd : d ∉ l.map SearchResult.doc_index) : docRanks l d = none := by
  rw [docRanks]
  exact (docRanksAux_eq_none d l 0).mpr hd

/-- The RRF score as the specification states it: `1 / (k + rank)` summed
over exactly the lists containing the doc index, ranks starting at 1. -/
def rrfSpecScore (results1 results2 : List SearchResult) (k : ℚ) (d : ℕ) : ℚ :=
  (if d ∈ results1.map SearchResult.doc_index
    then 1 / (k + (rankInList results1 d : ℚ)) else 0)
  + (if d ∈ results2.map SearchResult.doc_index
    then 1 / (k + (rankInList results2 d : ℚ)) else 0)

theorem rrfScoreOf_eq_spec (results1 results2 : List SearchResult) (k : ℚ) (d : ℕ)
    (h1 : (results1.map SearchResult.doc_index).Nodup)
    (h2 : (results2.map SearchResult.doc_index).Nodup) :
    rrfScoreOf results1 results2 k d = rrfSpecScore results1 results2 k d := by
  unfold rrfScoreOf rrfSpecScore
  congr 1
  · by_cases hd : d ∈ results1.map SearchResult.doc_index
    · rw [docRanks_of_nodup _ _ h1 hd, if_pos hd]
    · rw [docRanks_eq_none _ _ hd, if_neg hd]
  · by_cases hd : d ∈ results2.map SearchResult.doc_index
    · rw [docRanks_of_nodup _ _ h2 hd, if_pos hd]
    · rw [docRanks_eq_none _ _ hd, if_neg hd]

theorem firstResultFor_mem (L : List SearchResult) (d : ℕ)
    (hd : d ∈ L.map SearchResult.doc_index) :
    ∃ r, firstResultFor L d = some r ∧ r.doc_index = d := by
  unfold firstResultFor
  rcases List.mem_map.mp hd with ⟨r0, hr0, hd0⟩
  have hmem : r0 ∈ L.filter (fun r => r.doc_index = d) :=
    List.mem_filter.mpr ⟨hr0, by simp [hd0]⟩
  rcases hx : L.filter (fun r => r.doc_index = d) with _ | ⟨x, xs⟩
  · rw [hx] at hmem; cases hmem
  · refine ⟨x, by rw [hx]; rfl, ?_⟩
    have hxmem : x ∈ L.filter (fun r => r.doc_index = d) := by
      rw [hx]; exact List.mem_cons_self x xs
    simpa using (List.mem_filter.mp hxmem).2

theorem filterMap_attachRrf_proj (L : List SearchResult) :
    ∀ (l : List (ℕ × ℚ)), (∀ p ∈ l, p.1 ∈ L.map SearchResult.doc_index) →
      ((l.filterMap (attachRrf L)).map SearchResult.doc_index = l.map Prod.fst)
      ∧ ((l.filterMap (attachRrf L)).map (fun r => r.rrf_score.getD 0) = l.map Prod.snd)
      ∧ (∀ r ∈ l.filterMap (attachRrf L),
          ∃ p ∈ l, r.doc_index = p.1 ∧ r.rrf_score = some p.2) := by
  intro l
  induction l with
  | nil =>
    intro _
    exact ⟨rfl, rfl, fun r hr => absurd hr (by simp)⟩
  | cons p t ih =>
    intro hl
    have hp1 := hl p (List.mem_cons_self p t)
    rcases firstResultFor_mem L p.1 hp1 with ⟨r0, hr0, hr0d⟩
    have iht := ih (fun q hq => hl q (List.mem_cons_of_mem p hq))
    have hfp : attachRrf L p = some { r0 with rrf_score := some p.2 } := by
      unfold attachRrf
      rw [hr0]
    refine ⟨?_, ?_, ?_⟩
    · simp only [List.filterMap_cons, hfp, List.map_cons, iht.1, hr0d]
    · simp only [List.filterMap_cons, hfp, List.map_cons, iht.2.1, Option.getD_some]
    · intro r hr
      simp only [List.filterMap_cons, hfp] at hr
      rcases List.mem_cons.mp hr with rfl | hr
      · exact ⟨p, List.mem_cons_self p t, by simp [hr0d], rfl⟩
      · rcases iht.2.2 r hr with ⟨q, hq, hq1, hq2⟩
        exact ⟨q, List.mem_cons_of_mem p hq, hq1, hq2⟩

/-- Sorted (doc index, RRF score) pairs: the `sorted_docs` value inside
`rank_fusion`, as a proof-side abbreviation. -/
def rrfSorted (results1 results2 : List SearchResult) (k : ℚ) : List (ℕ × ℚ) :=
  ((pyDictKeys ((results1 ++ results2).map (fun r : SearchResult => r.doc_index))).map
    (fun d => (d, rrfScoreOf results1 results2 k d))).insertionSort sndGe

/-- Claim C4 (amended and proved): for result lists in which no doc index
repeats, `rank_fusion` returns exactly the union of the doc indices of the
two lists, without duplicates; each returned result carries
`rrf_score = Σ 1/(k + rank)` summed over only the lists containing its doc
index (ranks starting at 1); and the output is sorted by that score
descending. Ties are NOT broken by doc index ascending (see the
counterexample theorem); they follow the enumeration order of the union. -/
theorem rank_fusion_spec (results1 results2 : List SearchResult) (k : ℚ)
    (h1 : (results1.map SearchResult.doc_index).Nodup)
    (h2 : (results2.map SearchResult.doc_index).Nodup) :
    (∀ d : ℕ, d ∈ (rankFusion results1 results2 k).map SearchResult.doc_index
        ↔ (d ∈ results1.map SearchResult.doc_index
            ∨ d ∈ results2.map SearchResult.doc_index))
    ∧ ((rankFusion results1 results2 k).map SearchResult.doc_index).Nodup
    ∧ (∀ r ∈ rankFusion results1 results2 k,
        r.rrf_score = some (rrfSpecScore results1 results2 k r.doc_index))
    ∧ (rankFusion results1 results2 k).Pairwise
        (fun a b => b.rrf_score.getD 0 ≤ a.rrf_score.getD 0) := by
  have hout : rankFusion results1 results2 k
      = (rrfSorted results1 results2 k).filterMap (attachRrf (results1 ++ results2)) := rfl
  have hpre : ∀ p ∈ rrfSorted results1 results2 k,
      p.1 ∈ (results1 ++ results2).map SearchResult.doc_index := by
    intro p hp
    rcases List.mem_map.mp ((List.mem_insertionSort _).mp hp) with ⟨d, hd, rfl⟩
    exact (mem_pyDictKeys _ _).mp hd
  have hproj := filterMap_attachRrf_proj (results1 ++ results2) _ hpre
  have hfst : List.Perm ((rrfSorted results1 results2 k).map Prod.fst)
      (pyDictKeys ((results1 ++ results2).map (fun r : SearchResult => r.doc_index))) := by
    have h0 := (List.perm_insertionSort sndGe
      ((pyDictKeys ((results1 ++ results2).map (fun r : SearchResult => r.doc_index))).map
        (fun d => (d, rrfScoreOf results1 results2 k d)))).map Prod.fst
    rw [List.map_map] at h0
    have hmapid : ((pyDictKeys ((results1 ++ results2).map
          (fun r : SearchResult => r.doc_index))).map
          (Prod.fst ∘ fun d => (d, rrfScoreOf results1 results2 k d)))
        = pyDictKeys ((results1 ++ results2).map (fun r : SearchResult => r.doc_index)) :=
      (List.map_congr_left (fun a _ => rfl)).trans (List.map_id _)
    rw [hmapid] at h0
    exact h0
  refine ⟨?_, ?_, ?_, ?_⟩
  · intro d
    rw [hout, hproj.1, hfst.mem_iff, mem_pyDictKeys]
    have hmaps : (results1 ++ results2).map (fun r : SearchResult => r.doc_index)
        = results1.map SearchResult.doc_index ++ results2.map SearchResult.doc_index :=
      List.map_append _ _ _
    rw [hmaps, List.mem_append]
  · rw [hout, hproj.1]
    exact hfst.nodup_iff.mpr (pyDictKeys_nodup _)
  · intro r hr
    rw [hout] at hr
    rcases hproj.2.2 r hr with ⟨p, hp, hd, hscore⟩
    rcases List.mem_map.mp ((List.mem_insertionSort _).mp hp) with ⟨d, -, rfl⟩
    rw [hscore, hd]
    exact congrArg some (rrfScoreOf_eq_spec results1 results2 k d h1 h2)
  · rw [hout]
    have hsort := List.sorted_insertionSort sndGe
      ((pyDictKeys ((results1 ++ results2).map (fun r : SearchResult => r.doc_index))).map
        (fun d => (d, rrfScoreOf results1 results2 k d)))
    have hm : (((rrfSorted results1 results2 k).map Prod.snd)).Pairwise
        (fun a b => b ≤ a) :=
      List.pairwise_map.mpr (hsort.imp (fun h => h))
    rw [← hproj.2.1] at hm
    exact List.pairwise_map.mp hm

/-- Result record with doc index 8 used by the C4 counterexample. -/
def resDoc8 : SearchResult :=
  { passage := "x8", score := 0, metadata := ⟨none, []⟩, doc_index := 8
    bm25_score := none, dpr_score := none, rrf_score := none, fusion_weights := none }

/-- Result record with doc index 1 used by the C4 counterexample. -/
def resDoc1 : SearchResult :=
  { passage := "x1", score := 0, metadata := ⟨none, []⟩, doc_index := 1
    bm25_score := none, dpr_score := none, rrf_score := none, fusion_weights := none }

unseal Rat.add Rat.mul Rat.sub Rat.inv Rat.ofScientific in
/-- Claim C4 counterexample: fusing the single-element rankings `[doc 8]`
and `[doc 1]` gives both docs the same RRF score `1/61`, yet the output
order is `[8, 1]` — ties are not broken by doc index ascending (the claim
would require `[1, 8]`). Checked against CPython 3: `set({8}) | set({1})`
iterates as `8, 1`, and the stable descending sort keeps that order. -/
theorem rank_fusion_tiebreak_counterexample :
    (rankFusion [resDoc8] [resDoc1] 60).map SearchResult.doc_index = [8, 1]
    ∧ (rankFusion [resDoc8] [resDoc1] 60).map SearchResult.rrf_score
        = [some (1/61), some (1/61)]
    ∧ ¬ (rankFusion [resDoc8] [resDoc1] 60).Pairwise
        (fun a b => b.rrf_score.getD 0 < a.rrf_score.getD 0
          ∨ (a.rrf_score.getD 0 = b.rrf_score.getD 0 ∧ a.doc_index < b.doc_index)) := by
  decide

unseal Rat.add Rat.mul Rat.sub Rat.inv Rat.ofScientific in
/-- Witness for claim C4 (amended): the theorem applied to the concrete
rankings `[doc 8]` and `[doc 1]` (duplicate-free by evaluation) shows doc 1
appears in the fused output. -/
theorem rank_fusion_spec_witness :
    1 ∈ (rankFusion [resDoc8] [resDoc1] 60).map SearchResult.doc_index :=
  ((rank_fusion_spec [resDoc8] [resDoc1] 60 (by decide) (by decide)).1 1).mpr
    (Or.inr (by decide))

end DuoMind
